import Mathlib

/-!
# LakeBTC client: the authenticated-request path

A shallow embedding of `lakebtchttp.go`.

* Go `string` values are Lean `String`s (so the texts covered are the valid
  UTF-8 ones); where Go works on the bytes of a string (`url.QueryEscape`) the
  UTF-8 bytes are taken, and where it compares strings (`sort.Strings`) the
  code points are compared, which is the same order.
* `int64` values are `Int`s, with the two-complement wrap written out where
  the library computes on them; a `float64` is its IEEE 754 bit pattern.
* The functions of the Go standard library that the file calls
  (`strconv.FormatInt`, `strconv.FormatFloat`, `url.Values`, `http.Header`,
  `time.Time`) are written after their library definitions.
* Every interaction with the outside (the wall clock, `http.NewRequest`,
  `client.Do`, the logger) is an explicit step on a `World`, answered by an
  `Env`; the helpers `GetHMAC`, `HexEncodeToString` and `Base64Encode`, which
  are declared in another file of the repository, are fields of the `Env`.
-/

namespace Lakebtc

/-! ## Constants -/

def LAKEBTC_API_URL : String := "https://www.LakeBTC.com/api_v1/"
def LAKEBTC_GET_ACCOUNT_INFO : String := "getAccountInfo"
def LAKEBTC_BUY_ORDER : String := "buyOrder"
def LAKEBTC_SELL_ORDER : String := "sellOrder"
def LAKEBTC_GET_ORDERS : String := "getOrders"
def LAKEBTC_CANCEL_ORDER : String := "cancelOrder"
def LAKEBTC_GET_TRADES : String := "getTrades"

/-! ## strconv.FormatInt (base 10) -/

/-- The byte `'0' + d` as a character. -/
def digitChar (d : Nat) : Char := Char.ofNat (48 + d)

/-- The digit loop of `strconv.formatBits` for base 10: while `u >= 10` the
low digit goes in front of the buffer and `u` is divided by ten; the last
digit closes.  The first argument bounds the number of iterations. -/
def formatBits : Nat → Nat → List Char → List Char
  | 0, _, acc => acc
  | fuel + 1, u, acc =>
    if u < 10 then digitChar u :: acc
    else formatBits fuel (u / 10) (digitChar (u % 10) :: acc)

/-- Decimal digits of `u`, most significant first. -/
def formatUint (u : Nat) : List Char := formatBits (u + 1) u []

/-- The function `strconv.FormatInt(i, 10)`: the value is converted to `uint64`, negated
(mod 2^64) when `i < 0`, written in decimal, and a `-` is put in front of a
negative one. -/
def FormatInt (i : Int) : String :=
  let u : Nat := (i % 2 ^ 64).toNat
  let u : Nat := if i < 0 then (2 ^ 64 - u) % 2 ^ 64 else u
  String.mk ((if i < 0 then ['-'] else []) ++ formatUint u)

/-! ## net/url: QueryEscape and Values -/

/-- The UTF-8 bytes of a string, as numbers below 256. -/
def utf8Bytes (s : String) : List Nat :=
  (s.data.flatMap String.utf8EncodeChar).map UInt8.toNat

/-- The test `url.shouldEscape(c, encodeQueryComponent)`: letters, digits and the marks
`-`, `_`, `.`, `~` stay; the reserved characters and everything else are
escaped. -/
def shouldEscape (c : Nat) : Bool :=
  if (65 ≤ c ∧ c ≤ 90) ∨ (97 ≤ c ∧ c ≤ 122) ∨ (48 ≤ c ∧ c ≤ 57) then false
  else if c = 45 ∨ c = 95 ∨ c = 46 ∨ c = 126 then false
  else true

/-- One hexadecimal digit, `"0123456789ABCDEF"[n]`. -/
def upperhex (n : Nat) : Char := "0123456789ABCDEF".data.getD n '0'

/-- What `url.escape` writes for one byte in query-component mode: `+` for a
space, `%XX` for a byte that must be escaped, the byte itself otherwise. -/
def escapeByte (c : Nat) : List Char :=
  if c = 32 then ['+']
  else if shouldEscape c then ['%', upperhex (c / 16), upperhex (c % 16)]
  else [Char.ofNat c]

/-- The function `url.QueryEscape`: every byte of the string is escaped in turn. -/
def QueryEscape (s : String) : String :=
  String.mk ((utf8Bytes s).flatMap escapeByte)

/-- The type `url.Values`, a map from key to the list of its values, kept as an
association list with one entry per key. -/
abbrev Values := List (String × List String)

/-- The method `Values.Set`: `v[key] = []string{value}`. -/
def Values.Set (v : Values) (key value : String) : Values :=
  if v.any (fun p => p.1 == key) then
    v.map (fun p => if p.1 == key then (p.1, [value]) else p)
  else v ++ [(key, [value])]

/-- The method `Values.Get`: the first value of the key, or the empty string. -/
def Values.Get (v : Values) (key : String) : String :=
  match v.lookup key with
  | some (x :: _) => x
  | _ => ""

/-- The comparison `<` of Go strings: lexicographic order of the bytes, which on UTF-8 text
is the lexicographic order of the code points. -/
def strLess (a b : String) : Bool := decide (a.data < b.data)

/-- Insertion of one key into a list sorted by `<`. -/
def insertKey (k : String) : List String → List String
  | [] => [k]
  | h :: t => if strLess k h then k :: h :: t else h :: insertKey k t

/-- The function `sort.Strings`, as an insertion sort. -/
def sortStrings : List String → List String
  | [] => []
  | h :: t => insertKey h (sortStrings t)

/-- The method `Values.Encode`: the keys are collected and sorted, and for every key, in
that order, every value is written as `QueryEscape(key)=QueryEscape(value)`,
with `&` in front when the buffer is not empty. -/
def Values.Encode (v : Values) : String :=
  let keys := sortStrings (v.map Prod.fst)
  keys.foldl (fun buf k =>
    let vs := (v.lookup k).getD []
    let pre := QueryEscape k ++ "="
    vs.foldl (fun buf x =>
      (if buf.length > 0 then buf ++ "&" else buf) ++ pre ++ QueryEscape x) buf) ""

/-! ## strconv.FormatFloat (format 'f', 64 bits) -/

/-- A `float64`, given by its IEEE 754 bit pattern (`math.Float64bits`); only
the low 64 bits are looked at. -/
structure Float64 where
  bits : Nat

/-- The sign bit, `bits>>63 != 0`. -/
def Float64.neg (f : Float64) : Bool := f.bits / 2 ^ 63 % 2 != 0

/-- The biased exponent field, `int(bits>>52) & (1<<11 - 1)`. -/
def Float64.expField (f : Float64) : Nat := f.bits / 2 ^ 52 % 2 ^ 11

/-- The fraction field, `bits & (1<<52 - 1)`. -/
def Float64.mantField (f : Float64) : Nat := f.bits % 2 ^ 52

/-- The nearest integer to `num / den`, a tie going to the even one
(`decimal.Round`). -/
def roundHalfEven (num den : Nat) : Nat :=
  let q := num / den
  let r := num % den
  if den < 2 * r ∨ (2 * r = den ∧ q % 2 = 1) then q + 1 else q

/-- The last `w` decimal digits of `m`, zeros in front included. -/
def padDigits : Nat → Nat → List Char
  | 0, _ => []
  | w + 1, m => padDigits w (m / 10) ++ [digitChar (m % 10)]

/-- The function `strconv.FormatFloat(f, 'f', prec, 64)`.  An all-ones exponent gives `NaN`,
`+Inf` or `-Inf`.  Otherwise the exponent field of a denormal counts as 1, a
normal number gets its implicit top bit, the value is
`mant * 2^(exp - 1023 - 52)`, it is rounded to `prec` decimals (half to
even), and written as sign, integer digits, `.`, `prec` fraction digits. -/
def FormatFloat (f : Float64) (prec : Nat) : String :=
  let neg := f.neg
  let exp := f.expField
  let mant := f.mantField
  if exp = 2047 then
    if mant ≠ 0 then "NaN" else if neg then "-Inf" else "+Inf"
  else
    let exp := if exp = 0 then 1 else exp
    let mant := if f.expField = 0 then mant else mant + 2 ^ 52
    let n := roundHalfEven (mant * 2 ^ exp * 10 ^ prec) (2 ^ 1075)
    String.mk ((if neg then ['-'] else []) ++ formatUint (n / 10 ^ prec)
      ++ (if prec > 0 then '.' :: padDigits prec (n % 10 ^ prec) else []))

/-! ## time.Time -/

/-- A `time.Time`: seconds since January 1 of year 1, 00:00:00 UTC, and
nanoseconds within the second. -/
structure Time where
  sec : Int
  nsec : Nat

/-- Seconds from year 1 to 1970. -/
def unixToInternal : Int := (1969 * 365 + 1969 / 4 - 1969 / 100 + 1969 / 400) * 86400

/-- An integer brought into the `int64` range by two's-complement wrap. -/
def wrapInt64 (i : Int) : Int := (i + 2 ^ 63) % 2 ^ 64 - 2 ^ 63

/-- The method `Time.IsZero`: the zero instant, `sec == 0 && nsec == 0`. -/
def Time.IsZero (t : Time) : Bool := t.sec == 0 && t.nsec == 0

/-- The method `Time.Unix`: `sec + internalToUnix`, in `int64`. -/
def Time.Unix (t : Time) : Int := wrapInt64 (t.sec - unixToInternal)

/-- The function `time.Unix(sec, 0)`: the instant `sec` seconds after 1970. -/
def Time.ofUnix (sec : Int) : Time := { sec := wrapInt64 (sec + unixToInternal), nsec := 0 }

/-! ## net/http: headers, requests, errors -/

/-- The test `textproto.validHeaderFieldByte`: the token characters of RFC 7230. -/
def validHeaderFieldByte (c : Nat) : Bool :=
  (65 ≤ c && c ≤ 90) || (97 ≤ c && c ≤ 122) || (48 ≤ c && c ≤ 57) ||
  [33, 35, 36, 37, 38, 39, 42, 43, 45, 46, 94, 95, 96, 124, 126].contains c

/-- The rewriting loop of `textproto.canonicalMIMEHeaderKey`: the first letter
and every letter after a `-` in upper case, the others in lower case. -/
def canonLoop : Bool → List Char → List Char
  | _, [] => []
  | upper, c :: cs =>
    let c :=
      if upper && 'a' ≤ c && c ≤ 'z' then Char.ofNat (c.toNat - 32)
      else if !upper && 'A' ≤ c && c ≤ 'Z' then Char.ofNat (c.toNat + 32)
      else c
    c :: canonLoop (c == '-') cs

/-- The function `textproto.CanonicalMIMEHeaderKey`: a key with a space or another byte that
is no header field byte is returned as it is. -/
def CanonicalMIMEHeaderKey (s : String) : String :=
  if s.data.all (fun c => validHeaderFieldByte c.toNat) then String.mk (canonLoop true s.data)
  else s

/-- The type `http.Header`, a map from canonical key to its values. -/
abbrev Header := List (String × List String)

/-- The method `Header.Add`: the value is appended to the values of the canonical key. -/
def Header.Add (h : Header) (key value : String) : Header :=
  let key := CanonicalMIMEHeaderKey key
  if h.any (fun p => p.1 == key) then
    h.map (fun p => if p.1 == key then (p.1, p.2 ++ [value]) else p)
  else h ++ [(key, [value])]

/-- The method `Header.Get`: the first value of the canonical key, or the empty string. -/
def Header.Get (h : Header) (key : String) : String :=
  match h.lookup (CanonicalMIMEHeaderKey key) with
  | some (x :: _) => x
  | _ => ""

/-- The part of `http.Request` this client fills in. -/
structure Request where
  Method : String
  URL : String
  Header : Header
  Body : String
deriving DecidableEq

/-- What the transport hands back: a status code and the body that
`ioutil.ReadAll` reads. -/
structure Response where
  StatusCode : Nat
  Body : String

/-- A Go `error` value, told apart by where it was made: inside the standard
library (`net/http`, `net/url`), or by a call of `errors.New` in this file.
`errors.New` allocates a new value at every call, so such a value is equal to
none the library has returned. -/
inductive GoError where
  | lib (msg : String)
  | errorsNew (text : String)
deriving DecidableEq

/-- The `Error()` text. -/
def GoError.Error : GoError → String
  | .lib msg => msg
  | .errorsNew text => text

/-! ## The outside: clock, request validation, transport, helpers -/

/-- What the surroundings answer.  `GetHMAC`, `HexEncodeToString` and
`Base64Encode` are helpers of the repository that live outside
`lakebtchttp.go`; they are taken as they come (`GetHMAC` with its first
argument `sha256.New` fixed, then the input and the key). -/
structure Env where
  now : Nat → Int
  newRequestErr : String → String → Option String
  roundTrip : Nat → Request → Except String Response
  GetHMAC : String → String → List Nat
  HexEncodeToString : List Nat → String
  Base64Encode : String → String

/-- What the program has done to the outside so far: how often it read the
clock, the arguments of every `http.NewRequest`, every request given to
`client.Do`, and the lines handed to the logger. -/
structure World where
  clockReads : Nat
  built : List (String × String × String)
  sent : List Request
  log : List String
deriving DecidableEq

/-- The untouched world. -/
def World.init : World := { clockReads := 0, built := [], sent := [], log := [] }

/-- The function `http.NewRequest(method, url, strings.NewReader(body))`: the library
accepts or rejects the method and the URL; an accepted request has the
method, the URL, no header and the reader's content as body. -/
def NewRequest (env : Env) (method url body : String) : Except GoError Request :=
  match env.newRequestErr method url with
  | some msg => .error (.lib msg)
  | none => .ok { Method := method, URL := url, Header := [], Body := body }

/-! ## The client -/

/-- The client's state, `type LakeBTC struct`. -/
structure LakeBTC where
  Name : String
  Enabled : Bool
  Verbose : Bool
  Email : String
  APISecret : String
  TakerFee : Float64
  MakerFee : Float64

/-- The calls `log.Printf` and `log.Println`: one more line for the logger. -/
def World.logLine (w : World) (line : String) : World := { w with log := w.log ++ [line] }

/-- The parameter set of `SendAuthenticatedHTTPRequest`: an empty `url.Values`
and the six calls of `Set`, in the order of the source. -/
def SendAuthenticatedHTTPRequest.values (nonce email method params : String) : Values :=
  let v : Values := []
  let v := Values.Set v "tnonce" nonce
  let v := Values.Set v "accesskey" email
  let v := Values.Set v "requestmethod" "POST"
  let v := Values.Set v "id" nonce
  let v := Values.Set v "method" method
  let v := Values.Set v "params" params
  v

/-- The method `SendAuthenticatedHTTPRequest`: the result is the returned `error` (`none`
for `nil`) and the world after the call. -/
def SendAuthenticatedHTTPRequest (env : Env) (l : LakeBTC) (method params : String)
    (w : World) : Option GoError × World :=
  let nonce := FormatInt (env.now w.clockReads)
  let w := { w with clockReads := w.clockReads + 1 }
  let v := SendAuthenticatedHTTPRequest.values nonce l.Email method params
  let encoded := Values.Encode v
  let hmac := env.GetHMAC encoded l.APISecret
  let w :=
    if l.Verbose then
      w.logLine ("Sending POST request to " ++ LAKEBTC_API_URL ++ " calling method " ++ method
        ++ " with params " ++ encoded ++ "\n")
    else w
  let w := { w with built := w.built ++ [("POST", LAKEBTC_API_URL, encoded)] }
  match NewRequest env "POST" LAKEBTC_API_URL encoded with
  | .error err => (some err, w)
  | .ok req =>
    let req := { req with Header := Header.Add req.Header "Json-Rpc-Tonce" nonce }
    let auth := env.Base64Encode (l.Email ++ ":" ++ env.HexEncodeToString hmac)
    let req := { req with Header := Header.Add req.Header "Authorization: Basic" auth }
    let ctype := "application/x-www-form-urlencoded"
    let req := { req with Header := Header.Add req.Header "Content-Type" ctype }
    let attempt := w.sent.length
    let w := { w with sent := w.sent ++ [req] }
    match env.roundTrip attempt req with
    | .error _ => (some (.errorsNew "PostRequest: Unable to send request"), w)
    | .ok resp =>
      let contents := resp.Body
      let w := if l.Verbose then w.logLine ("Recieved raw: " ++ contents ++ "\n") else w
      (none, w)

/-- The callers' `if err != nil { log.Println(err) }`. -/
def logIfErr (r : Option GoError × World) : World :=
  match r.1 with
  | some err => r.2.logLine (err.Error ++ "\n")
  | none => r.2

/-- The method `GetAccountInfo`: one authenticated call without parameters. -/
def GetAccountInfo (env : Env) (l : LakeBTC) (w : World) : World :=
  logIfErr (SendAuthenticatedHTTPRequest env l LAKEBTC_GET_ACCOUNT_INFO "" w)

/-- The parameter string `Trade` builds. -/
def Trade.params (amount price : Float64) (currency : String) : String :=
  FormatFloat price 8 ++ "," ++ FormatFloat amount 8 ++ "," ++ currency

/-- The method `Trade`: the buy or the sell call with the parameter string, then
the logging of the error.  (The first value of `err`, `errors.New("")`, is
overwritten in both branches and is left out.) -/
def Trade (env : Env) (l : LakeBTC) (orderType : Int) (amount price : Float64)
    (currency : String) (w : World) : World :=
  let params := Trade.params amount price currency
  let r :=
    if orderType = 0 then SendAuthenticatedHTTPRequest env l LAKEBTC_BUY_ORDER params w
    else SendAuthenticatedHTTPRequest env l LAKEBTC_SELL_ORDER params w
  logIfErr r

/-- The method `GetOrders`: one authenticated call without parameters. -/
def GetOrders (env : Env) (l : LakeBTC) (w : World) : World :=
  logIfErr (SendAuthenticatedHTTPRequest env l LAKEBTC_GET_ORDERS "" w)

/-- The parameter string `CancelOrder` builds. -/
def CancelOrder.params (orderID : Int) : String := FormatInt orderID

/-- The method `CancelOrder`: one authenticated call with the order identifier. -/
def CancelOrder (env : Env) (l : LakeBTC) (orderID : Int) (w : World) : World :=
  let params := CancelOrder.params orderID
  logIfErr (SendAuthenticatedHTTPRequest env l LAKEBTC_CANCEL_ORDER params w)

/-- The parameter string `GetTrades` builds. -/
def GetTrades.params (timestamp : Time) : String :=
  let params := ""
  if !timestamp.IsZero then FormatInt timestamp.Unix else params

/-- The method `GetTrades`: one authenticated call with the timestamp, if any. -/
def GetTrades (env : Env) (l : LakeBTC) (timestamp : Time) (w : World) : World :=
  let params := GetTrades.params timestamp
  logIfErr (SendAuthenticatedHTTPRequest env l LAKEBTC_GET_TRADES params w)

/-! ## Concrete surroundings for examples -/

/-- A clock stuck at 1700000000, a library that accepts every request, a
transport that answers 200, and stand-ins for the three helpers. -/
def exampleEnv : Env where
  now := fun _ => 1700000000
  newRequestErr := fun _ _ => none
  roundTrip := fun _ _ => .ok { StatusCode := 200, Body := "ok" }
  GetHMAC := fun input key => utf8Bytes (key ++ "|" ++ input)
  HexEncodeToString := fun b => String.mk (b.flatMap (fun c => [upperhex (c / 16), upperhex (c % 16)]))
  Base64Encode := fun s => "b64(" ++ s ++ ")"

/-- A client with the account `user` and the secret `secret`. -/
def exampleClient : LakeBTC where
  Name := "LakeBTC"
  Enabled := true
  Verbose := false
  Email := "user"
  APISecret := "secret"
  TakerFee := ⟨0⟩
  MakerFee := ⟨0⟩

/-! ## Closed forms used in the statements -/

/-- The pairs `key=value` that `Values.Encode` writes for the given keys. -/
def encodedPairs (v : Values) (keys : List String) : List String :=
  keys.flatMap (fun k => ((v.lookup k).getD []).map (fun x => QueryEscape k ++ "=" ++ QueryEscape x))

/-- The six calls of `Set` as data. -/
def setCalls (nonce email method params : String) : List (String × String) :=
  [("tnonce", nonce), ("accesskey", email), ("requestmethod", "POST"), ("id", nonce),
   ("method", method), ("params", params)]

/-- The canonical string in closed form. -/
def canonical (nonce email method params : String) : String :=
  "&".intercalate
    ["accesskey=" ++ QueryEscape email, "id=" ++ QueryEscape nonce,
     "method=" ++ QueryEscape method, "params=" ++ QueryEscape params,
     "requestmethod=" ++ QueryEscape "POST", "tnonce=" ++ QueryEscape nonce]

/-- A decimal digit character. -/
def isDigit (c : Char) : Bool := '0' ≤ c && c ≤ '9'

/-- The number a string of digits denotes, reading on from `a`; characters
that are no digits (a sign, a decimal point) are passed over. -/
def digitsValue (a : Nat) (cs : List Char) : Nat :=
  cs.foldl (fun a c => if isDigit c then a * 10 + (c.toNat - 48) else a) a

/-- Reading a decimal integer the way `strconv.ParseInt(s, 10, 64)` does: an
optional sign, at least one digit, nothing else, and a value in the `int64`
range; `none` stands for its error. -/
def ParseInt (s : String) : Option Int :=
  match s.data with
  | [] => none
  | c :: cs =>
    let neg := c == '-'
    let ds := if c == '+' || c == '-' then cs else c :: cs
    if ds.isEmpty || !ds.all isDigit then none
    else
      let un := digitsValue 0 ds
      if !neg && un ≥ 2 ^ 63 then none
      else if neg && un > 2 ^ 63 then none
      else some (if neg then -(un : Int) else (un : Int))

/-- The absolute value of a finite `float64` as a numerator over `2^1075`. -/
def Float64.absNum (f : Float64) : Nat :=
  (if f.expField = 0 then f.mantField else f.mantField + 2 ^ 52) *
    2 ^ (if f.expField = 0 then 1 else f.expField)

/-- Plain decimal notation with `prec` digits after the point: an optional
`-`, at least one digit, a `.`, exactly `prec` digits, and nothing else. -/
def isFixedDecimal (prec : Nat) (s : List Char) : Bool :=
  let body := if s.head? = some '-' then s.tail else s
  let ip := body.takeWhile isDigit
  let rest := body.dropWhile isDigit
  !ip.isEmpty && rest.head? == some '.' && rest.tail.length == prec && rest.tail.all isDigit

/-- The text `FormatFloat` writes for a number: sign, integer digits, point,
eight fraction digits of the scaled integer `n`. -/
def fixed8 (neg : Bool) (n : Nat) : List Char :=
  (if neg then ['-'] else []) ++ formatUint (n / 10 ^ 8) ++ '.' :: padDigits 8 (n % 10 ^ 8)

/-- The request `SendAuthenticatedHTTPRequest` hands to `client.Do`, written
out: method, URL, the three headers in the order they are added, and the body. -/
def authRequest (env : Env) (l : LakeBTC) (nonce encoded : String) : Request :=
  { Method := "POST"
    URL := LAKEBTC_API_URL
    Header :=
      [("Json-Rpc-Tonce", [nonce]),
       ("Authorization: Basic",
         [env.Base64Encode (l.Email ++ ":" ++
           env.HexEncodeToString (env.GetHMAC encoded l.APISecret))]),
       ("Content-Type", ["application/x-www-form-urlencoded"])]
    Body := encoded }

/-- The world after the clock read, the optional log line and the call of
`http.NewRequest`. -/
def afterBuild (l : LakeBTC) (method encoded : String) (w : World) : World :=
  { clockReads := w.clockReads + 1
    built := w.built ++ [("POST", LAKEBTC_API_URL, encoded)]
    sent := w.sent
    log := w.log ++
      (if l.Verbose then
        ["Sending POST request to " ++ LAKEBTC_API_URL ++ " calling method " ++ method ++
          " with params " ++ encoded ++ "\n"]
      else []) }

/-- An environment whose transport fails at the first attempt and would
succeed at every later one. -/
def flakyEnv : Env :=
  { exampleEnv with
    roundTrip := fun k _ =>
      if k = 0 then .error "dial tcp: connection refused"
      else .ok { StatusCode := 200, Body := "ok" } }

/-- An environment whose library rejects every request. -/
def rejectingEnv : Env :=
  { exampleEnv with newRequestErr := fun _ _ => some "parse: invalid URL" }

/-- Whether the text `s`, read as a decimal with eight fraction digits, is
within half a unit of the eighth decimal of `|f|`: with `n` the digits of `s`
read as one integer, `|absNum f * 10^8 - n * 2^1075| * 2 ≤ 2^1075`. -/
def nearestFixed8 (f : Float64) (s : String) : Bool :=
  decide (2 * (f.absNum * 10 ^ 8 - digitsValue 0 s.data * 2 ^ 1075) ≤ 2 ^ 1075) &&
    decide (2 * (digitsValue 0 s.data * 2 ^ 1075 - f.absNum * 10 ^ 8) ≤ 2 ^ 1075)

/-- The value of one hexadecimal digit, `none` for another character. -/
def unhex (c : Char) : Option Nat :=
  if '0' ≤ c ∧ c ≤ '9' then some (c.toNat - 48)
  else if 'a' ≤ c ∧ c ≤ 'f' then some (c.toNat - 97 + 10)
  else if 'A' ≤ c ∧ c ≤ 'F' then some (c.toNat - 65 + 10)
  else none

/-- Decoding by the rules of URL form encoding (`url.QueryUnescape`): `%XX`
is the byte with the hexadecimal value `XX`, `+` is a space, any other
character stands for itself; `none` for a `%` without two hexadecimal digits. -/
def QueryUnescape : List Char → Option (List Nat)
  | [] => some []
  | c :: rest =>
    if c = '%' then
      match rest with
      | a :: b :: rest2 =>
        match unhex a, unhex b, QueryUnescape rest2 with
        | some x, some y, some r => some ((x * 16 + y) :: r)
        | _, _, _ => none
      | _ => none
    else if c = '+' then (QueryUnescape rest).map (fun r => 32 :: r)
    else (QueryUnescape rest).map (fun r => c.toNat :: r)

/-! ## Lemmas: `Values.Encode` -/

theorem pair_length_pos (k x : String) : 0 < (QueryEscape k ++ "=" ++ QueryEscape x).length := by
  simp [String.length_append]
  have : "=".length = 1 := by decide
  omega

theorem foldl_sep_go (ps : List String) (acc : String) (hacc : 0 < acc.length)
    (hps : ∀ p ∈ ps, 0 < p.length) :
    ps.foldl (fun buf p => (if buf.length > 0 then buf ++ "&" else buf) ++ p) acc =
      String.intercalate.go acc "&" ps := by
  induction ps generalizing acc with
  | nil => rfl
  | cons p ps ih =>
    simp only [List.foldl_cons, String.intercalate.go]
    rw [if_pos hacc]
    apply ih
    · simp [String.length_append]; omega
    · intro q hq; exact hps q (List.mem_cons_of_mem _ hq)

theorem foldl_sep (ps : List String) (hps : ∀ p ∈ ps, 0 < p.length) :
    ps.foldl (fun buf p => (if buf.length > 0 then buf ++ "&" else buf) ++ p) "" =
      "&".intercalate ps := by
  cases ps with
  | nil => rfl
  | cons p ps =>
    simp only [List.foldl_cons, String.intercalate]
    have h0 : ¬ ("".length > 0) := by decide
    rw [if_neg h0, String.empty_append]
    exact foldl_sep_go ps p (hps p (List.mem_cons_self _ _))
      (fun q hq => hps q (List.mem_cons_of_mem _ hq))

theorem foldl_flatMap_eq {α β γ : Type} (f : β → γ → β) (g : α → List γ) (l : List α) (b : β) :
    (l.flatMap g).foldl f b = l.foldl (fun b a => (g a).foldl f b) b := by
  induction l generalizing b with
  | nil => rfl
  | cons a l ih => simp only [List.flatMap_cons, List.foldl_append, List.foldl_cons, ih]

theorem Encode_eq_intercalate (v : Values) :
    Values.Encode v = "&".intercalate (encodedPairs v (sortStrings (v.map Prod.fst))) := by
  unfold Values.Encode encodedPairs
  rw [← foldl_sep]
  · simp only [foldl_flatMap_eq, List.foldl_map, String.append_assoc]
  · intro p hp
    simp only [List.mem_flatMap, List.mem_map] at hp
    obtain ⟨k, _, x, _, rfl⟩ := hp
    exact pair_length_pos k x


theorem strLess_iff (a b : String) : strLess a b = true ↔ a.data < b.data := by
  simp [strLess]

theorem insertKey_perm (k : String) (l : List String) : (insertKey k l).Perm (k :: l) := by
  induction l with
  | nil => exact List.Perm.refl _
  | cons h t ih =>
    unfold insertKey
    split
    · exact List.Perm.refl _
    · exact (List.Perm.cons h ih).trans (List.Perm.swap k h t)

theorem sortStrings_perm (l : List String) : (sortStrings l).Perm l := by
  induction l with
  | nil => exact List.Perm.refl _
  | cons h t ih => exact (insertKey_perm h _).trans (List.Perm.cons h ih)

theorem insertKey_sorted (k : String) (l : List String)
    (hl : l.Pairwise (fun a b => a.data ≤ b.data)) :
    (insertKey k l).Pairwise (fun a b => a.data ≤ b.data) := by
  induction l with
  | nil => simp [insertKey]
  | cons h t ih =>
    rw [List.pairwise_cons] at hl
    unfold insertKey
    split
    · rename_i hk
      rw [strLess_iff] at hk
      refine List.pairwise_cons.2 ⟨?_, List.pairwise_cons.2 hl⟩
      intro x hx
      rcases List.mem_cons.1 hx with rfl | hx
      · exact le_of_lt hk
      · exact le_trans (le_of_lt hk) (hl.1 x hx)
    · rename_i hk
      rw [strLess_iff, not_lt] at hk
      refine List.pairwise_cons.2 ⟨?_, ih hl.2⟩
      intro x hx
      rcases List.mem_cons.1 ((insertKey_perm k t).mem_iff.1 hx) with rfl | hx
      · exact hk
      · exact hl.1 x hx

theorem sortStrings_sorted (l : List String) :
    (sortStrings l).Pairwise (fun a b => a.data ≤ b.data) := by
  induction l with
  | nil => simp [sortStrings]
  | cons h t ih => exact insertKey_sorted h _ ih

theorem sortStrings_eq_of_perm {l₁ l₂ : List String} (h : l₁.Perm l₂) :
    sortStrings l₁ = sortStrings l₂ := by
  have hp : (sortStrings l₁).Perm (sortStrings l₂) :=
    ((sortStrings_perm l₁).trans h).trans (sortStrings_perm l₂).symm
  have e : (sortStrings l₁).map String.data = (sortStrings l₂).map String.data :=
    List.eq_of_perm_of_sorted (r := fun a b : List Char => a ≤ b) (hp.map _)
      (List.pairwise_map.2 (sortStrings_sorted l₁)) (List.pairwise_map.2 (sortStrings_sorted l₂))
  exact List.map_injective_iff.2 (fun a b hab => String.ext hab) e


theorem lookup_perm {β : Type} (k : String) {l₁ l₂ : List (String × β)} (h : l₁.Perm l₂)
    (nd : (l₁.map Prod.fst).Nodup) : l₁.lookup k = l₂.lookup k := by
  induction h with
  | nil => rfl
  | cons x _ ih =>
    obtain ⟨a, b⟩ := x
    rw [List.map_cons, List.nodup_cons] at nd
    simp only [List.lookup_cons]
    rw [ih nd.2]
  | swap x y l =>
    obtain ⟨a, b⟩ := x
    obtain ⟨c, d⟩ := y
    simp only [List.map_cons, List.nodup_cons, List.mem_cons, not_or] at nd
    simp only [List.lookup_cons]
    cases hx : (k == a) <;> cases hy : (k == c) <;> try rfl
    rw [beq_iff_eq] at hx hy
    exact absurd (hy.symm.trans hx) nd.1.1
  | trans h₁ _ ih₁ ih₂ =>
    rw [ih₁ nd, ih₂ ((h₁.map Prod.fst).nodup_iff.1 nd)]

theorem Set_fresh (v : Values) (k x : String) (h : k ∉ v.map Prod.fst) :
    Values.Set v k x = v ++ [(k, [x])] := by
  unfold Values.Set
  rw [if_neg]
  simp only [List.any_eq_true, beq_iff_eq, not_exists, not_and, Bool.not_eq_true]
  intro p hp hpk
  exact h (List.mem_map.2 ⟨p, hp, hpk⟩)

theorem foldl_Set_nodup (ops : List (String × String)) (acc : Values)
    (h : (acc.map Prod.fst ++ ops.map Prod.fst).Nodup) :
    ops.foldl (fun v p => Values.Set v p.1 p.2) acc = acc ++ ops.map (fun p => (p.1, [p.2])) := by
  induction ops generalizing acc with
  | nil => simp
  | cons p ops ih =>
    have hp : p.1 ∉ acc.map Prod.fst := by
      intro hm
      have := (List.nodup_append.1 h).2.2
      exact this hm (by simp)
    simp only [List.foldl_cons]
    rw [Set_fresh acc p.1 p.2 hp, ih]
    · simp
    · simpa [List.append_assoc] using h

theorem Encode_perm {m₁ m₂ : Values} (h : m₁.Perm m₂) (nd : (m₁.map Prod.fst).Nodup) :
    Values.Encode m₁ = Values.Encode m₂ := by
  rw [Encode_eq_intercalate, Encode_eq_intercalate, sortStrings_eq_of_perm (h.map Prod.fst)]
  unfold encodedPairs
  congr 1
  apply List.flatMap_congr  
  intro k _
  rw [lookup_perm k h nd]

theorem Encode_order_independent (nonce email method params : String)
    (ops : List (String × String)) (h : ops.Perm (setCalls nonce email method params)) :
    Values.Encode (ops.foldl (fun v p => Values.Set v p.1 p.2) []) =
      Values.Encode (SendAuthenticatedHTTPRequest.values nonce email method params) := by
  have nd0 : ((setCalls nonce email method params).map Prod.fst).Nodup := by
    simp only [setCalls, List.map]; decide
  have nd : (ops.map Prod.fst).Nodup := (h.map Prod.fst).nodup_iff.2 nd0
  rw [foldl_Set_nodup ops [] (by simpa using nd)]
  have e : SendAuthenticatedHTTPRequest.values nonce email method params =
      [] ++ (setCalls nonce email method params).map (fun p => (p.1, [p.2])) := rfl
  rw [e]
  apply Encode_perm
  · simpa using h.map _
  · simpa [List.map_map, Function.comp_def] using nd


theorem Encode_values (nonce email method params : String) :
    Values.Encode (SendAuthenticatedHTTPRequest.values nonce email method params) =
      canonical nonce email method params := by
  rw [Encode_eq_intercalate]
  have hk : sortStrings ((SendAuthenticatedHTTPRequest.values nonce email method params).map
      Prod.fst) = ["accesskey", "id", "method", "params", "requestmethod", "tnonce"] := by
    have h1 : (SendAuthenticatedHTTPRequest.values nonce email method params).map Prod.fst =
        ["tnonce", "accesskey", "requestmethod", "id", "method", "params"] := rfl
    rw [h1]
    decide
  rw [hk]
  have e1 : QueryEscape "accesskey" = "accesskey" := by decide
  have e2 : QueryEscape "id" = "id" := by decide
  have e3 : QueryEscape "method" = "method" := by decide
  have e4 : QueryEscape "params" = "params" := by decide
  have e5 : QueryEscape "requestmethod" = "requestmethod" := by decide
  have e6 : QueryEscape "tnonce" = "tnonce" := by decide
  have a1 : "accesskey" ++ "=" = "accesskey=" := by decide
  have a2 : "id" ++ "=" = "id=" := by decide
  have a3 : "method" ++ "=" = "method=" := by decide
  have a4 : "params" ++ "=" = "params=" := by decide
  have a5 : "requestmethod" ++ "=" = "requestmethod=" := by decide
  have a6 : "tnonce" ++ "=" = "tnonce=" := by decide
  have hp : encodedPairs (SendAuthenticatedHTTPRequest.values nonce email method params)
      ["accesskey", "id", "method", "params", "requestmethod", "tnonce"] =
      ["accesskey" ++ "=" ++ QueryEscape email, "id" ++ "=" ++ QueryEscape nonce,
       "method" ++ "=" ++ QueryEscape method, "params" ++ "=" ++ QueryEscape params,
       "requestmethod" ++ "=" ++ QueryEscape "POST", "tnonce" ++ "=" ++ QueryEscape nonce] := by
    unfold encodedPairs
    simp only [List.flatMap_cons, List.flatMap_nil, e1, e2, e3, e4, e5, e6]
    rfl
  rw [hp, a1, a2, a3, a4, a5, a6]
  rfl

theorem upperhex_safe (n : Nat) : upperhex n ≠ '&' ∧ upperhex n ≠ '=' := by
  by_cases h : n < 16
  · revert n; decide
  · have : upperhex n = '0' := by
      unfold upperhex
      exact List.getD_eq_default _ _ (by simpa using h)
    rw [this]; decide

theorem unescaped_safe (c : Nat) (h : shouldEscape c = false) :
    Char.ofNat c ≠ '&' ∧ Char.ofNat c ≠ '=' := by
  have hc : c < 127 := by
    unfold shouldEscape at h
    by_contra hn
    rw [if_neg (by omega), if_neg (by omega)] at h
    exact absurd h (by decide)
  revert h; revert c; decide

theorem escapeByte_safe (c : Nat) : ∀ ch ∈ escapeByte c, ch ≠ '&' ∧ ch ≠ '=' := by
  intro ch hch
  unfold escapeByte at hch
  split at hch
  · rw [List.mem_singleton] at hch; subst hch; decide
  · split at hch
    · simp only [List.mem_cons, List.mem_singleton, List.not_mem_nil, or_false] at hch
      rcases hch with rfl | rfl | rfl
      · decide
      · exact upperhex_safe _
      · exact upperhex_safe _
    · rename_i h
      rw [List.mem_singleton] at hch; subst hch
      exact unescaped_safe c (by simpa using h)

theorem QueryEscape_safe (x : String) :
    '&' ∉ (QueryEscape x).data ∧ '=' ∉ (QueryEscape x).data := by
  unfold QueryEscape
  constructor <;>
  · intro h
    obtain ⟨c, _, hc⟩ := List.mem_flatMap.1 h
    have := escapeByte_safe c _ hc
    simp at this

/-! ## Lemmas: decimal digits, `FormatInt`, `FormatFloat` -/

theorem digitChar_spec : ∀ d, d < 10 →
    isDigit (digitChar d) = true ∧ (digitChar d).toNat - 48 = d ∧ digitChar d ≠ '-' ∧
      digitChar d ≠ '+' ∧ digitChar d ≠ '.' ∧ digitChar d ≠ ',' ∧
      ((String.utf8EncodeChar (digitChar d)).map UInt8.toNat).flatMap escapeByte =
        [digitChar d] := by
  decide

theorem digitsValue_formatBits (fuel u : Nat) (acc : List Char) (h : u < fuel) :
    digitsValue 0 (formatBits fuel u acc) = digitsValue u acc := by
  induction fuel generalizing u acc with
  | zero => omega
  | succ fuel ih =>
    unfold formatBits
    split
    · rename_i hu
      have := digitChar_spec u hu
      simp [digitsValue, this.1, this.2.1]
    · rename_i hu
      rw [ih (u / 10) _ (by omega)]
      have := digitChar_spec (u % 10) (Nat.mod_lt _ (by decide))
      simp only [digitsValue, List.foldl_cons, this.1, this.2.1, if_true]
      congr 1
      omega

theorem digitsValue_formatUint (u : Nat) : digitsValue 0 (formatUint u) = u := by
  unfold formatUint
  rw [digitsValue_formatBits _ _ _ (by omega)]
  rfl

theorem formatBits_digits (fuel u : Nat) (acc : List Char)
    (hacc : ∀ c ∈ acc, ∃ d, d < 10 ∧ c = digitChar d) :
    ∀ c ∈ formatBits fuel u acc, ∃ d, d < 10 ∧ c = digitChar d := by
  induction fuel generalizing u acc with
  | zero => exact hacc
  | succ fuel ih =>
    unfold formatBits
    split
    · rename_i hu
      intro c hc
      rcases List.mem_cons.1 hc with rfl | hc
      · exact ⟨u, hu, rfl⟩
      · exact hacc c hc
    · apply ih
      intro c hc
      rcases List.mem_cons.1 hc with rfl | hc
      · exact ⟨u % 10, Nat.mod_lt _ (by decide), rfl⟩
      · exact hacc c hc

theorem formatUint_digits (u : Nat) : ∀ c ∈ formatUint u, ∃ d, d < 10 ∧ c = digitChar d :=
  formatBits_digits _ _ _ (by simp)

theorem formatBits_ne_nil (fuel u : Nat) (acc : List Char) (h : 0 < fuel ∨ acc ≠ []) :
    formatBits fuel u acc ≠ [] := by
  induction fuel generalizing u acc with
  | zero =>
    rcases h with h | h
    · omega
    · exact h
  | succ fuel ih =>
    unfold formatBits
    split
    · simp
    · exact ih _ _ (Or.inr (by simp))

theorem formatUint_ne_nil (u : Nat) : formatUint u ≠ [] :=
  formatBits_ne_nil _ _ _ (Or.inl (by omega))

theorem all_isDigit_of_digits (cs : List Char) (h : ∀ c ∈ cs, ∃ d, d < 10 ∧ c = digitChar d) :
    cs.all isDigit = true := by
  rw [List.all_eq_true]
  intro c hc
  obtain ⟨d, hd, rfl⟩ := h c hc
  exact (digitChar_spec d hd).1

theorem ParseInt_digits (ds : List Char) (hne : ds ≠ [])
    (hd : ∀ c ∈ ds, ∃ d, d < 10 ∧ c = digitChar d) (hr : digitsValue 0 ds < 2 ^ 63) :
    ParseInt (String.mk ds) = some (digitsValue 0 ds : Int) := by
  cases ds with
  | nil => exact absurd rfl hne
  | cons c cs =>
    obtain ⟨d, hd0, hc⟩ := hd c (List.mem_cons_self _ _)
    have h1 : (c == '-') = false := by
      rw [hc]; exact beq_false_of_ne (digitChar_spec d hd0).2.2.1
    have h2 : (c == '+') = false := by
      rw [hc]; exact beq_false_of_ne (digitChar_spec d hd0).2.2.2.1
    have h3 : (c :: cs).all isDigit = true := all_isDigit_of_digits _ hd
    have h4 : ¬ (digitsValue 0 (c :: cs) ≥ 2 ^ 63) := by omega
    simp only [ParseInt, h1, h2, Bool.or_self, Bool.false_eq_true, if_false, List.isEmpty_cons,
      h3, Bool.not_true, Bool.not_false, Bool.true_and, Bool.false_and, decide_eq_true_eq, h4]

theorem ParseInt_neg_digits (ds : List Char) (hne : ds ≠ [])
    (hd : ∀ c ∈ ds, ∃ d, d < 10 ∧ c = digitChar d) (hr : digitsValue 0 ds ≤ 2 ^ 63) :
    ParseInt (String.mk ('-' :: ds)) = some (-(digitsValue 0 ds : Int)) := by
  have h3 : ds.all isDigit = true := all_isDigit_of_digits _ hd
  have h4 : ¬ (digitsValue 0 ds > 2 ^ 63) := by omega
  have h5 : ds.isEmpty = false := by cases ds with
    | nil => exact absurd rfl hne
    | cons => rfl
  simp [ParseInt, h3, h5]
  omega

theorem FormatInt_nonneg (i : Int) (h0 : 0 ≤ i) (h1 : i < 2 ^ 63) :
    FormatInt i = String.mk (formatUint i.toNat) := by
  unfold FormatInt
  have e : (i % 2 ^ 64).toNat = i.toNat := by
    rw [Int.emod_eq_of_lt h0 (by omega)]
  simp only [e, if_neg (not_lt.2 h0), List.nil_append]

theorem FormatInt_neg (i : Int) (h0 : i < 0) (h1 : -2 ^ 63 ≤ i) :
    FormatInt i = String.mk ('-' :: formatUint (-i).toNat) := by
  unfold FormatInt
  have e : (2 ^ 64 - (i % 2 ^ 64).toNat) % 2 ^ 64 = (-i).toNat := by
    have : i % 2 ^ 64 = i + 2 ^ 64 := by
      rw [← Int.add_emod_self, Int.emod_eq_of_lt (by omega) (by omega)]
    omega
  simp only [e, if_pos h0, List.singleton_append]

theorem ParseInt_FormatInt (i : Int) (h0 : -2 ^ 63 ≤ i) (h1 : i < 2 ^ 63) :
    ParseInt (FormatInt i) = some i := by
  by_cases hi : 0 ≤ i
  · rw [FormatInt_nonneg i hi h1, ParseInt_digits _ (formatUint_ne_nil _) (formatUint_digits _)
      (by rw [digitsValue_formatUint]; omega), digitsValue_formatUint]
    congr 1; omega
  · rw [FormatInt_neg i (by omega) h0, ParseInt_neg_digits _ (formatUint_ne_nil _)
      (formatUint_digits _) (by rw [digitsValue_formatUint]; omega), digitsValue_formatUint]
    congr 1; omega

theorem escape_minus :
    ((String.utf8EncodeChar '-').map UInt8.toNat).flatMap escapeByte = ['-'] := by decide

theorem QueryEscape_plain (cs : List Char)
    (h : ∀ c ∈ cs, (∃ d, d < 10 ∧ c = digitChar d) ∨ c = '-') :
    QueryEscape (String.mk cs) = String.mk cs := by
  unfold QueryEscape utf8Bytes
  congr 1
  induction cs with
  | nil => rfl
  | cons c cs ih =>
    simp only [List.flatMap_cons, List.map_append, List.flatMap_append]
    rw [ih (fun x hx => h x (List.mem_cons_of_mem _ hx))]
    rcases h c (List.mem_cons_self _ _) with ⟨d, hd, rfl⟩ | rfl
    · rw [(digitChar_spec d hd).2.2.2.2.2.2]; rfl
    · rw [escape_minus]; rfl

theorem QueryEscape_FormatInt (i : Int) : QueryEscape (FormatInt i) = FormatInt i := by
  unfold FormatInt
  apply QueryEscape_plain
  intro c hc
  rcases List.mem_append.1 hc with hc | hc
  · split at hc
    · right; simpa using hc
    · simp at hc
  · left; exact formatUint_digits _ c hc

theorem QueryEscape_POST : QueryEscape "POST" = "POST" := by decide

theorem roundHalfEven_spec (num den : Nat) (hden : 0 < den) :
    2 * (num - roundHalfEven num den * den) ≤ den ∧
      2 * (roundHalfEven num den * den - num) ≤ den := by
  have h := Nat.div_add_mod num den
  have hr := Nat.mod_lt num hden
  unfold roundHalfEven
  simp only []
  generalize num / den = a at *
  generalize num % den = r at *
  have hm : den * a = a * den := Nat.mul_comm _ _
  split
  · rename_i hc
    rw [Nat.add_mul, Nat.one_mul]
    generalize a * den = m at *
    omega
  · rename_i hc
    generalize a * den = m at *
    omega

theorem padDigits_length (w m : Nat) : (padDigits w m).length = w := by
  induction w generalizing m with
  | zero => rfl
  | succ w ih => simp [padDigits, ih]

theorem padDigits_digits (w m : Nat) : ∀ c ∈ padDigits w m, ∃ d, d < 10 ∧ c = digitChar d := by
  induction w generalizing m with
  | zero => simp [padDigits]
  | succ w ih =>
    intro c hc
    simp only [padDigits, List.mem_append, List.mem_singleton] at hc
    rcases hc with hc | rfl
    · exact ih _ c hc
    · exact ⟨m % 10, Nat.mod_lt _ (by decide), rfl⟩

theorem digitsValue_append (a : Nat) (xs ys : List Char) :
    digitsValue a (xs ++ ys) = digitsValue (digitsValue a xs) ys := by
  simp [digitsValue, List.foldl_append]

theorem digitsValue_padDigits (w a m : Nat) :
    digitsValue a (padDigits w m) = a * 10 ^ w + m % 10 ^ w := by
  induction w generalizing m with
  | zero => simp [padDigits, digitsValue, Nat.mod_one]
  | succ w ih =>
    have hd := digitChar_spec (m % 10) (Nat.mod_lt _ (by decide))
    rw [padDigits, digitsValue_append, ih]
    simp only [digitsValue, List.foldl_cons, List.foldl_nil, hd.1, hd.2.1, if_true]
    rw [pow_succ', Nat.mod_mul]
    ring

theorem takeWhile_digits (ds r : List Char) (h : ∀ c ∈ ds, ∃ d, d < 10 ∧ c = digitChar d) :
    (ds ++ '.' :: r).takeWhile isDigit = ds ∧ (ds ++ '.' :: r).dropWhile isDigit = '.' :: r := by
  induction ds with
  | nil =>
    have : isDigit '.' = false := by decide
    simp [List.takeWhile, List.dropWhile, this]
  | cons c cs ih =>
    obtain ⟨d, hd, rfl⟩ := h _ (List.mem_cons_self _ _)
    have hc := (digitChar_spec d hd).1
    have := ih (fun x hx => h x (List.mem_cons_of_mem _ hx))
    simp [List.takeWhile, List.dropWhile, hc, this.1, this.2]

theorem FormatFloat_finite (f : Float64) (h : f.expField ≠ 2047) :
    FormatFloat f 8 = String.mk (fixed8 f.neg (roundHalfEven (f.absNum * 10 ^ 8) (2 ^ 1075))) := by
  unfold FormatFloat fixed8 Float64.absNum
  simp only [if_neg h]
  rfl

theorem fixedDecimal_of_digits (neg : Bool) (A B : List Char) (hA : A ≠ [])
    (hAd : ∀ c ∈ A, ∃ d, d < 10 ∧ c = digitChar d)
    (hBd : ∀ c ∈ B, ∃ d, d < 10 ∧ c = digitChar d) :
    isFixedDecimal B.length ((if neg then ['-'] else []) ++ A ++ '.' :: B) = true := by
  have hb : (if ((if neg then ['-'] else []) ++ A ++ '.' :: B).head? = some '-' then
      ((if neg then ['-'] else []) ++ A ++ '.' :: B).tail
      else (if neg then ['-'] else []) ++ A ++ '.' :: B) = A ++ '.' :: B := by
    cases neg with
    | true => simp
    | false =>
      cases A with
      | nil => exact absurd rfl hA
      | cons c cs =>
        obtain ⟨d, hd, hc⟩ := hAd c (List.mem_cons_self _ _)
        have hcm : c ≠ '-' := by rw [hc]; exact (digitChar_spec d hd).2.2.1
        simp [hcm]
  have ht := takeWhile_digits A B hAd
  unfold isFixedDecimal
  simp only [hb, ht.1, ht.2]
  have h1 : A.isEmpty = false := by
    cases A with
    | nil => exact absurd rfl hA
    | cons => rfl
  simp [h1, all_isDigit_of_digits _ hBd]

theorem fixed8_isFixedDecimal (neg : Bool) (n : Nat) : isFixedDecimal 8 (fixed8 neg n) = true := by
  have h := fixedDecimal_of_digits neg (formatUint (n / 10 ^ 8)) (padDigits 8 (n % 10 ^ 8))
    (formatUint_ne_nil _) (formatUint_digits _) (padDigits_digits _ _)
  rw [padDigits_length] at h
  exact h

theorem fixed8_value (neg : Bool) (n : Nat) : digitsValue 0 (fixed8 neg n) = n := by
  have h0 : digitsValue 0 (if neg then ['-'] else []) = 0 := by cases neg <;> decide
  have hp : ∀ a cs, digitsValue a ('.' :: cs) = digitsValue a cs := by
    intro a cs
    have : isDigit '.' = false := by decide
    simp [digitsValue, this]
  unfold fixed8
  rw [digitsValue_append, digitsValue_append, h0, digitsValue_formatUint, hp,
    digitsValue_padDigits, Nat.mod_mod]
  exact Nat.div_add_mod' n (10 ^ 8)

theorem fixed8_no_comma (neg : Bool) (n : Nat) : ',' ∉ fixed8 neg n := by
  intro h
  unfold fixed8 at h
  simp only [List.mem_append, List.mem_cons] at h
  rcases h with (h | h) | h | h
  · cases neg <;> simp at h
  · obtain ⟨d, hd, hc⟩ := formatUint_digits _ _ h
    exact (digitChar_spec d hd).2.2.2.2.2.1 hc.symm
  · exact absurd h (by decide)
  · obtain ⟨d, hd, hc⟩ := padDigits_digits _ _ _ h
    exact (digitChar_spec d hd).2.2.2.2.2.1 hc.symm

/-! ## Lemmas: `SendAuthenticatedHTTPRequest` by outcome -/

theorem headers_eq (nonce auth : String) :
    Header.Add (Header.Add (Header.Add [] "Json-Rpc-Tonce" nonce) "Authorization: Basic" auth)
      "Content-Type" "application/x-www-form-urlencoded" =
    [("Json-Rpc-Tonce", [nonce]), ("Authorization: Basic", [auth]),
     ("Content-Type", ["application/x-www-form-urlencoded"])] := by
  rfl

theorem send_rejected (env : Env) (l : LakeBTC) (method params : String) (w : World)
    (msg : String) (h : env.newRequestErr "POST" LAKEBTC_API_URL = some msg) :
    SendAuthenticatedHTTPRequest env l method params w =
      (some (.lib msg),
        afterBuild l method (canonical (FormatInt (env.now w.clockReads)) l.Email method params)
          w) := by
  unfold SendAuthenticatedHTTPRequest NewRequest afterBuild
  rw [h]
  simp only [Encode_values]
  generalize canonical (FormatInt (env.now w.clockReads)) l.Email method params = enc
  cases l.Verbose
  · simp [World.logLine]
  · simp [World.logLine]

theorem send_transport_error (env : Env) (l : LakeBTC) (method params : String) (w : World)
    (e : String) (h : env.newRequestErr "POST" LAKEBTC_API_URL = none)
    (ht : env.roundTrip w.sent.length (authRequest env l (FormatInt (env.now w.clockReads))
      (canonical (FormatInt (env.now w.clockReads)) l.Email method params)) = .error e) :
    SendAuthenticatedHTTPRequest env l method params w =
      (some (.errorsNew "PostRequest: Unable to send request"),
        { afterBuild l method
            (canonical (FormatInt (env.now w.clockReads)) l.Email method params) w with
          sent := w.sent ++ [authRequest env l (FormatInt (env.now w.clockReads))
            (canonical (FormatInt (env.now w.clockReads)) l.Email method params)] }) := by
  unfold SendAuthenticatedHTTPRequest NewRequest afterBuild
  rw [h]
  simp only [Encode_values, headers_eq]
  unfold authRequest at ht ⊢
  generalize canonical (FormatInt (env.now w.clockReads)) l.Email method params = enc at ht ⊢
  generalize FormatInt (env.now w.clockReads) = nonce at ht ⊢
  cases l.Verbose
  · simp [World.logLine, ht]
  · simp [World.logLine, ht]

theorem send_ok (env : Env) (l : LakeBTC) (method params : String) (w : World)
    (resp : Response) (h : env.newRequestErr "POST" LAKEBTC_API_URL = none)
    (ht : env.roundTrip w.sent.length (authRequest env l (FormatInt (env.now w.clockReads))
      (canonical (FormatInt (env.now w.clockReads)) l.Email method params)) = .ok resp) :
    SendAuthenticatedHTTPRequest env l method params w =
      (none,
        { afterBuild l method
            (canonical (FormatInt (env.now w.clockReads)) l.Email method params) w with
          sent := w.sent ++ [authRequest env l (FormatInt (env.now w.clockReads))
            (canonical (FormatInt (env.now w.clockReads)) l.Email method params)]
          log := (afterBuild l method
            (canonical (FormatInt (env.now w.clockReads)) l.Email method params) w).log ++
              (if l.Verbose then ["Recieved raw: " ++ resp.Body ++ "\n"] else []) }) := by
  unfold SendAuthenticatedHTTPRequest NewRequest afterBuild
  rw [h]
  simp only [Encode_values, headers_eq]
  unfold authRequest at ht ⊢
  generalize canonical (FormatInt (env.now w.clockReads)) l.Email method params = enc at ht ⊢
  generalize FormatInt (env.now w.clockReads) = nonce at ht ⊢
  cases l.Verbose
  · simp [World.logLine, ht]
  · simp [World.logLine, ht]

theorem send_clockReads (env : Env) (l : LakeBTC) (method params : String) (w : World) :
    (SendAuthenticatedHTTPRequest env l method params w).2.clockReads = w.clockReads + 1 := by
  cases h : env.newRequestErr "POST" LAKEBTC_API_URL with
  | some msg => rw [send_rejected env l method params w msg h]; rfl
  | none =>
    cases ht : env.roundTrip w.sent.length (authRequest env l (FormatInt (env.now w.clockReads))
      (canonical (FormatInt (env.now w.clockReads)) l.Email method params)) with
    | error e => rw [send_transport_error env l method params w e h ht]; rfl
    | ok resp => rw [send_ok env l method params w resp h ht]; rfl

theorem send_built (env : Env) (l : LakeBTC) (method params : String) (w : World) :
    (SendAuthenticatedHTTPRequest env l method params w).2.built =
      w.built ++ [("POST", LAKEBTC_API_URL,
        canonical (FormatInt (env.now w.clockReads)) l.Email method params)] := by
  cases h : env.newRequestErr "POST" LAKEBTC_API_URL with
  | some msg => rw [send_rejected env l method params w msg h]; rfl
  | none =>
    cases ht : env.roundTrip w.sent.length (authRequest env l (FormatInt (env.now w.clockReads))
      (canonical (FormatInt (env.now w.clockReads)) l.Email method params)) with
    | error e => rw [send_transport_error env l method params w e h ht]; rfl
    | ok resp => rw [send_ok env l method params w resp h ht]; rfl

theorem send_sent (env : Env) (l : LakeBTC) (method params : String) (w : World)
    (h : env.newRequestErr "POST" LAKEBTC_API_URL = none) :
    (SendAuthenticatedHTTPRequest env l method params w).2.sent =
      w.sent ++ [authRequest env l (FormatInt (env.now w.clockReads))
        (canonical (FormatInt (env.now w.clockReads)) l.Email method params)] := by
  cases ht : env.roundTrip w.sent.length (authRequest env l (FormatInt (env.now w.clockReads))
    (canonical (FormatInt (env.now w.clockReads)) l.Email method params)) with
  | error e => rw [send_transport_error env l method params w e h ht]
  | ok resp => rw [send_ok env l method params w resp h ht]

theorem logIfErr_fields (r : Option GoError × World) :
    (logIfErr r).clockReads = r.2.clockReads ∧ (logIfErr r).built = r.2.built ∧
      (logIfErr r).sent = r.2.sent := by
  unfold logIfErr
  split <;> exact ⟨rfl, rfl, rfl⟩

/-! ## Lemmas: decoding an escaped string -/

theorem unhex_upperhex : ∀ n, n < 16 → unhex (upperhex n) = some n := by decide

set_option maxRecDepth 16384 in
theorem unescaped_plain : ∀ c, c < 256 → shouldEscape c = false →
    Char.ofNat c ≠ '%' ∧ Char.ofNat c ≠ '+' ∧ (Char.ofNat c).toNat = c := by decide

theorem QueryUnescape_percent (a b : Char) (rest : List Char) :
    QueryUnescape ('%' :: a :: b :: rest) =
      (match unhex a, unhex b, QueryUnescape rest with
        | some x, some y, some r => some ((x * 16 + y) :: r)
        | _, _, _ => none) := by
  rw [QueryUnescape.eq_def]
  simp

theorem QueryUnescape_plus (rest : List Char) :
    QueryUnescape ('+' :: rest) = (QueryUnescape rest).map (fun r => 32 :: r) := by
  rw [QueryUnescape.eq_def]
  simp

theorem QueryUnescape_other (c : Char) (rest : List Char) (h1 : c ≠ '%') (h2 : c ≠ '+') :
    QueryUnescape (c :: rest) = (QueryUnescape rest).map (fun r => c.toNat :: r) := by
  rw [QueryUnescape.eq_def]
  simp [h1, h2]

theorem QueryUnescape_escapeByte (c : Nat) (hc : c < 256) (rest : List Char) :
    QueryUnescape (escapeByte c ++ rest) = (QueryUnescape rest).map (fun r => c :: r) := by
  unfold escapeByte
  split
  · rename_i h
    subst h
    exact QueryUnescape_plus rest
  · split
    · have h1 := unhex_upperhex (c / 16) (by omega)
      have h2 := unhex_upperhex (c % 16) (by omega)
      have h3 : c / 16 * 16 + c % 16 = c := by omega
      show QueryUnescape ('%' :: upperhex (c / 16) :: upperhex (c % 16) :: rest) = _
      rw [QueryUnescape_percent, h1, h2]
      cases QueryUnescape rest with
      | none => rfl
      | some r => simp [h3]
    · rename_i h
      have hp := unescaped_plain c hc (by simpa using h)
      show QueryUnescape (Char.ofNat c :: rest) = _
      rw [QueryUnescape_other _ _ hp.1 hp.2.1, hp.2.2]

theorem QueryUnescape_QueryEscape (x : String) :
    QueryUnescape (QueryEscape x).data = some (utf8Bytes x) := by
  unfold QueryEscape
  have hb : ∀ c ∈ utf8Bytes x, c < 256 := by
    intro c hc
    unfold utf8Bytes at hc
    obtain ⟨b, _, rfl⟩ := List.mem_map.1 hc
    exact b.toNat_lt
  generalize utf8Bytes x = bs at hb
  induction bs with
  | nil => rfl
  | cons c cs ih =>
    simp only [List.flatMap_cons]
    rw [QueryUnescape_escapeByte c (hb c (List.mem_cons_self _ _)),
      ih (fun y hy => hb y (List.mem_cons_of_mem _ hy))]
    rfl

/-! ## The claims -/

/-- C1. The request handed to the transport has as body the very string that
was given to `GetHMAC` as message, with `APISecret` as key: whatever
`GetHMAC`, `HexEncodeToString` and `Base64Encode` are, the value sent under
the authorization key is computed from `GetHMAC body APISecret`, and the
body is the output of `Values.Encode`, unchanged. -/
theorem body_is_signed_string (env : Env) (l : LakeBTC) (method params : String) (w : World)
    (h : env.newRequestErr "POST" LAKEBTC_API_URL = none) :
    ∃ req : Request,
      (SendAuthenticatedHTTPRequest env l method params w).2.sent = w.sent ++ [req] ∧
      req.Body = Values.Encode (SendAuthenticatedHTTPRequest.values
        (FormatInt (env.now w.clockReads)) l.Email method params) ∧
      (SendAuthenticatedHTTPRequest env l method params w).2.built =
        w.built ++ [("POST", LAKEBTC_API_URL, req.Body)] ∧
      Header.Get req.Header "Authorization: Basic" =
        env.Base64Encode (l.Email ++ ":" ++
          env.HexEncodeToString (env.GetHMAC req.Body l.APISecret)) := by
  refine ⟨_, send_sent env l method params w h, ?_, ?_, ?_⟩
  · rw [Encode_values]; rfl
  · rw [send_built]; rfl
  · rfl

/-- C1 at a concrete call: the library accepts the request, and the body sent
is the signed string. -/
theorem body_is_signed_string_witness :
    ∃ req : Request,
      (SendAuthenticatedHTTPRequest exampleEnv exampleClient "getOrders" "a,b" World.init).2.sent
        = World.init.sent ++ [req] ∧
      req.Body = Values.Encode (SendAuthenticatedHTTPRequest.values
        (FormatInt (exampleEnv.now World.init.clockReads)) exampleClient.Email "getOrders" "a,b") ∧
      (SendAuthenticatedHTTPRequest exampleEnv exampleClient "getOrders" "a,b" World.init).2.built
        = World.init.built ++ [("POST", LAKEBTC_API_URL, req.Body)] ∧
      Header.Get req.Header "Authorization: Basic" =
        exampleEnv.Base64Encode (exampleClient.Email ++ ":" ++
          exampleEnv.HexEncodeToString (exampleEnv.GetHMAC req.Body exampleClient.APISecret)) :=
  body_is_signed_string exampleEnv exampleClient "getOrders" "a,b" World.init rfl

theorem count_QueryEscape (x : String) :
    (QueryEscape x).data.count '&' = 0 ∧ (QueryEscape x).data.count '=' = 0 :=
  ⟨List.count_eq_zero.2 (QueryEscape_safe x).1, List.count_eq_zero.2 (QueryEscape_safe x).2⟩

theorem canonical_data (nonce email method params : String) :
    (canonical nonce email method params).data =
      "accesskey=".data ++ (QueryEscape email).data ++ "&id=".data ++ (QueryEscape nonce).data ++
      "&method=".data ++ (QueryEscape method).data ++ "&params=".data ++
      (QueryEscape params).data ++ "&requestmethod=POST&tnonce=".data ++
      (QueryEscape nonce).data := by
  unfold canonical
  rw [QueryEscape_POST]
  simp only [String.intercalate, String.intercalate.go, String.data_append, List.append_assoc]
  rfl

theorem canonical_counts (nonce email method params : String) :
    (canonical nonce email method params).data.count '&' = 5 ∧
      (canonical nonce email method params).data.count '=' = 6 := by
  rw [canonical_data]
  simp only [List.count_append, (count_QueryEscape _).1, (count_QueryEscape _).2]
  constructor <;> decide

/-- C2. The canonical string that `SendAuthenticatedHTTPRequest` builds is the
six pairs `key=value` joined with `&`, in the order accesskey, id, method,
params, requestmethod, tnonce, which is strictly increasing in the order of
`sort.Strings`; every value is the `QueryEscape` of the raw one, an escaped
value holds neither `&` nor `=` and decodes to the bytes of the raw one, so
the string has exactly five `&` and six `=`; and any order of the six `Set`
calls gives the same string. -/
theorem canonical_string_sorted_escaped (env : Env) (l : LakeBTC) (method params : String)
    (w : World) :
    (SendAuthenticatedHTTPRequest env l method params w).2.built =
        w.built ++ [("POST", LAKEBTC_API_URL,
          Values.Encode (SendAuthenticatedHTTPRequest.values
            (FormatInt (env.now w.clockReads)) l.Email method params))] ∧
      Values.Encode (SendAuthenticatedHTTPRequest.values
          (FormatInt (env.now w.clockReads)) l.Email method params) =
        "&".intercalate
          ["accesskey=" ++ QueryEscape l.Email,
           "id=" ++ QueryEscape (FormatInt (env.now w.clockReads)),
           "method=" ++ QueryEscape method,
           "params=" ++ QueryEscape params,
           "requestmethod=" ++ QueryEscape "POST",
           "tnonce=" ++ QueryEscape (FormatInt (env.now w.clockReads))] ∧
      List.Pairwise (fun a b => strLess a b = true)
        ["accesskey", "id", "method", "params", "requestmethod", "tnonce"] ∧
      (∀ x : String, '&' ∉ (QueryEscape x).data ∧ '=' ∉ (QueryEscape x).data) ∧
      (∀ x : String, QueryUnescape (QueryEscape x).data = some (utf8Bytes x)) ∧
      (Values.Encode (SendAuthenticatedHTTPRequest.values
          (FormatInt (env.now w.clockReads)) l.Email method params)).data.count '&' = 5 ∧
      (Values.Encode (SendAuthenticatedHTTPRequest.values
          (FormatInt (env.now w.clockReads)) l.Email method params)).data.count '=' = 6 ∧
      ∀ ops : List (String × String),
        ops.Perm [("tnonce", FormatInt (env.now w.clockReads)), ("accesskey", l.Email),
          ("requestmethod", "POST"), ("id", FormatInt (env.now w.clockReads)),
          ("method", method), ("params", params)] →
        Values.Encode (ops.foldl (fun v p => Values.Set v p.1 p.2) []) =
          Values.Encode (SendAuthenticatedHTTPRequest.values
            (FormatInt (env.now w.clockReads)) l.Email method params) := by
  refine ⟨?_, ?_, by decide, QueryEscape_safe, QueryUnescape_QueryEscape, ?_, ?_, ?_⟩
  · rw [send_built, Encode_values]
  · rw [Encode_values]; rfl
  · rw [Encode_values]; exact (canonical_counts _ _ _ _).1
  · rw [Encode_values]; exact (canonical_counts _ _ _ _).2
  · intro ops h
    exact Encode_order_independent _ _ _ _ ops h

/-- C2 at a concrete call whose parameter string holds `,`, `&` and `=`: the
canonical string still has six pairs, and the calls of `Set` in reverse order
give the same string. -/
theorem canonical_string_sorted_escaped_witness :
    Values.Encode (SendAuthenticatedHTTPRequest.values "1700000000" "user" "buyOrder" "1,2&x=y")
        = "accesskey=user&id=1700000000&method=buyOrder&params=1%2C2%26x%3Dy&requestmethod=POST&tnonce=1700000000" ∧
      Values.Encode
          ([("params", "1,2&x=y"), ("method", "buyOrder"), ("id", "1700000000"),
            ("requestmethod", "POST"), ("accesskey", "user"),
            ("tnonce", "1700000000")].foldl (fun v p => Values.Set v p.1 p.2) []) =
        Values.Encode
          (SendAuthenticatedHTTPRequest.values "1700000000" "user" "buyOrder" "1,2&x=y") :=
  ⟨by decide,
    (canonical_string_sorted_escaped exampleEnv exampleClient "buyOrder" "1,2&x=y"
      World.init).2.2.2.2.2.2.2 _ (by decide)⟩

set_option maxRecDepth 16384 in
/-- C3, as the spec words it, fails: for the account `user`, the clock at
1700000000 and a buy order with parameters `100.50000000,0.00100000,USD`,
the body sent starts with `accesskey`, not with `tnonce`, and the commas of
the parameter string are escaped; it is neither the spec's wire shape with
the raw values nor that shape with the escaped ones. -/
theorem wire_shape_counterexample :
    (SendAuthenticatedHTTPRequest exampleEnv exampleClient "buyOrder"
        "100.50000000,0.00100000,USD" World.init).2.sent.map Request.Body =
      ["accesskey=user&id=1700000000&method=buyOrder&params=100.50000000%2C0.00100000%2CUSD&requestmethod=POST&tnonce=1700000000"] ∧
    (SendAuthenticatedHTTPRequest exampleEnv exampleClient "buyOrder"
        "100.50000000,0.00100000,USD" World.init).2.sent.map Request.Body ≠
      ["tnonce=1700000000&accesskey=user&requestmethod=POST&id=1700000000&method=buyOrder&params=100.50000000,0.00100000,USD"] ∧
    (SendAuthenticatedHTTPRequest exampleEnv exampleClient "buyOrder"
        "100.50000000,0.00100000,USD" World.init).2.sent.map Request.Body ≠
      ["tnonce=1700000000&accesskey=user&requestmethod=POST&id=1700000000&method=buyOrder&params=100.50000000%2C0.00100000%2CUSD"] := by
  decide

/-- C3, amended. When the library accepts the request, exactly one request is
handed to the transport; it is a POST to the API URL whose body is
`accesskey=<accountId>&id=<nonce>&method=<methodName>&params=<param
string>&requestmethod=POST&tnonce=<nonce>`, the keys in lexicographic order,
the account id, method name and parameter string in their `QueryEscape`
form, the nonce being the decimal text of the clock reading. -/
theorem wire_shape_sorted (env : Env) (l : LakeBTC) (method params : String) (w : World)
    (h : env.newRequestErr "POST" LAKEBTC_API_URL = none) :
    ∃ req : Request,
      (SendAuthenticatedHTTPRequest env l method params w).2.sent = w.sent ++ [req] ∧
      req.Method = "POST" ∧ req.URL = "https://www.LakeBTC.com/api_v1/" ∧
      req.Body =
        "accesskey=" ++ QueryEscape l.Email ++ "&id=" ++ FormatInt (env.now w.clockReads) ++
          "&method=" ++ QueryEscape method ++ "&params=" ++ QueryEscape params ++
          "&requestmethod=POST&tnonce=" ++ FormatInt (env.now w.clockReads) := by
  refine ⟨_, send_sent env l method params w h, rfl, rfl, ?_⟩
  apply String.ext
  show (canonical _ _ _ _).data = _
  rw [canonical_data, QueryEscape_FormatInt]
  simp only [String.data_append, List.append_assoc]

/-- C3, amended, at a concrete call. -/
theorem wire_shape_sorted_witness :
    ∃ req : Request,
      (SendAuthenticatedHTTPRequest exampleEnv exampleClient "getTrades" "1700000000"
        World.init).2.sent = World.init.sent ++ [req] ∧
      req.Method = "POST" ∧ req.URL = "https://www.LakeBTC.com/api_v1/" ∧
      req.Body =
        "accesskey=" ++ QueryEscape exampleClient.Email ++ "&id=" ++
          FormatInt (exampleEnv.now World.init.clockReads) ++
          "&method=" ++ QueryEscape "getTrades" ++ "&params=" ++ QueryEscape "1700000000" ++
          "&requestmethod=POST&tnonce=" ++ FormatInt (exampleEnv.now World.init.clockReads) :=
  wire_shape_sorted exampleEnv exampleClient "getTrades" "1700000000" World.init rfl

set_option maxRecDepth 16384 in
/-- C4, the code at a concrete call: the request that is sent has the three
header keys `Json-Rpc-Tonce`, `Authorization: Basic` and `Content-Type`;
none is named `Authorization`, so `Header.Get` finds nothing under that name,
and the value stored under `Authorization: Basic` is the bare
`Base64Encode` output, without `Basic ` in front. -/
theorem authorization_header_misnamed :
    (SendAuthenticatedHTTPRequest exampleEnv exampleClient "getAccountInfo" ""
        World.init).2.sent.map (fun req => req.Header.map Prod.fst) =
      [["Json-Rpc-Tonce", "Authorization: Basic", "Content-Type"]] ∧
    (SendAuthenticatedHTTPRequest exampleEnv exampleClient "getAccountInfo" ""
        World.init).2.sent.map (fun req => Header.Get req.Header "Authorization") = [""] ∧
    (SendAuthenticatedHTTPRequest exampleEnv exampleClient "getAccountInfo" ""
        World.init).2.sent.map (fun req => Header.Get req.Header "Authorization: Basic") =
      [exampleEnv.Base64Encode ("user" ++ ":" ++ exampleEnv.HexEncodeToString
        (exampleEnv.GetHMAC
          "accesskey=user&id=1700000000&method=getAccountInfo&params=&requestmethod=POST&tnonce=1700000000"
          "secret"))] ∧
    (SendAuthenticatedHTTPRequest exampleEnv exampleClient "getAccountInfo" ""
        World.init).2.sent.map (fun req => Header.Get req.Header "Json-Rpc-Tonce") =
      ["1700000000"] ∧
    (SendAuthenticatedHTTPRequest exampleEnv exampleClient "getAccountInfo" ""
        World.init).2.sent.map (fun req => Header.Get req.Header "Content-Type") =
      ["application/x-www-form-urlencoded"] := by
  decide

theorem values_get (nonce email method params : String) :
    Values.Get (SendAuthenticatedHTTPRequest.values nonce email method params) "requestmethod"
        = "POST" ∧
      Values.Get (SendAuthenticatedHTTPRequest.values nonce email method params) "id" = nonce ∧
      Values.Get (SendAuthenticatedHTTPRequest.values nonce email method params) "tnonce"
        = nonce ∧
      Values.Get (SendAuthenticatedHTTPRequest.values nonce email method params) "method"
        = method ∧
      Values.Get (SendAuthenticatedHTTPRequest.values nonce email method params) "params"
        = params :=
  ⟨rfl, rfl, rfl, rfl, rfl⟩

/-- C5. Whatever the method and the parameter string, the parameter set holds
`requestmethod` = `POST`, and `id` and `tnonce` both hold the decimal text of
the one clock reading of the call (the clock is read exactly once, and for a
reading in the `int64` range the text reads back as that number); the body
built is the encoding of that set.  When the library accepts the request,
exactly one request is sent, it carries that same text under
`Json-Rpc-Tonce`, and its body is the encoding of the set; when the library
rejects it, nothing is sent. -/
theorem fixed_fields (env : Env) (l : LakeBTC) (method params : String) (w : World) :
    Values.Get (SendAuthenticatedHTTPRequest.values (FormatInt (env.now w.clockReads))
        l.Email method params) "requestmethod" = "POST" ∧
      Values.Get (SendAuthenticatedHTTPRequest.values (FormatInt (env.now w.clockReads))
        l.Email method params) "id" = FormatInt (env.now w.clockReads) ∧
      Values.Get (SendAuthenticatedHTTPRequest.values (FormatInt (env.now w.clockReads))
        l.Email method params) "tnonce" = FormatInt (env.now w.clockReads) ∧
      Values.Get (SendAuthenticatedHTTPRequest.values (FormatInt (env.now w.clockReads))
        l.Email method params) "id" =
        Values.Get (SendAuthenticatedHTTPRequest.values (FormatInt (env.now w.clockReads))
          l.Email method params) "tnonce" ∧
      (SendAuthenticatedHTTPRequest env l method params w).2.clockReads = w.clockReads + 1 ∧
      (SendAuthenticatedHTTPRequest env l method params w).2.built =
        w.built ++ [("POST", LAKEBTC_API_URL,
          Values.Encode (SendAuthenticatedHTTPRequest.values
            (FormatInt (env.now w.clockReads)) l.Email method params))] ∧
      (env.newRequestErr "POST" LAKEBTC_API_URL = none →
        ∃ req : Request,
          (SendAuthenticatedHTTPRequest env l method params w).2.sent = w.sent ++ [req] ∧
          Header.Get req.Header "Json-Rpc-Tonce" = FormatInt (env.now w.clockReads) ∧
          req.Header.lookup "Json-Rpc-Tonce" = some [FormatInt (env.now w.clockReads)] ∧
          req.Body = Values.Encode (SendAuthenticatedHTTPRequest.values
            (FormatInt (env.now w.clockReads)) l.Email method params) ∧
          req.Body =
            "accesskey=" ++ QueryEscape l.Email ++ "&id=" ++ FormatInt (env.now w.clockReads) ++
              "&method=" ++ QueryEscape method ++ "&params=" ++ QueryEscape params ++
              "&requestmethod=POST&tnonce=" ++ FormatInt (env.now w.clockReads)) ∧
      (∀ msg, env.newRequestErr "POST" LAKEBTC_API_URL = some msg →
        (SendAuthenticatedHTTPRequest env l method params w).2.sent = w.sent) ∧
      (-2 ^ 63 ≤ env.now w.clockReads → env.now w.clockReads < 2 ^ 63 →
        ParseInt (FormatInt (env.now w.clockReads)) = some (env.now w.clockReads)) := by
  refine ⟨rfl, rfl, rfl, rfl, send_clockReads env l method params w, ?_, ?_, ?_, ?_⟩
  · rw [send_built, Encode_values]
  · intro h
    refine ⟨_, send_sent env l method params w h, rfl, rfl, ?_, ?_⟩
    · rw [Encode_values]
      rfl
    · apply String.ext
      show (canonical _ _ _ _).data = _
      rw [canonical_data, QueryEscape_FormatInt]
      simp only [String.data_append, List.append_assoc]
  · intro msg h
    rw [send_rejected env l method params w msg h]
    rfl
  · intro h0 h1
    exact ParseInt_FormatInt _ h0 h1

set_option maxRecDepth 16384 in
/-- C5 at a concrete call (the clock at 1700000000, an accepting library): the
one request sent carries `1700000000` under `Json-Rpc-Tonce`, its body holds
`id=1700000000`, `requestmethod=POST` and `tnonce=1700000000`, and the text
reads back as the clock reading. -/
theorem fixed_fields_witness :
    (∃ req : Request,
      (SendAuthenticatedHTTPRequest exampleEnv exampleClient "getOrders" "" World.init).2.sent
        = World.init.sent ++ [req] ∧
      Header.Get req.Header "Json-Rpc-Tonce" = "1700000000" ∧
      req.Header.lookup "Json-Rpc-Tonce" = some ["1700000000"] ∧
      req.Body = Values.Encode (SendAuthenticatedHTTPRequest.values
        "1700000000" "user" "getOrders" "") ∧
      req.Body =
        "accesskey=" ++ QueryEscape "user" ++ "&id=" ++ "1700000000" ++
          "&method=" ++ QueryEscape "getOrders" ++ "&params=" ++ QueryEscape "" ++
          "&requestmethod=POST&tnonce=" ++ "1700000000") ∧
      (SendAuthenticatedHTTPRequest exampleEnv exampleClient "getOrders" "" World.init).2.sent.map
          Request.Body =
        ["accesskey=user&id=1700000000&method=getOrders&params=&requestmethod=POST&tnonce=1700000000"] ∧
      ParseInt (FormatInt 1700000000) = some 1700000000 :=
  ⟨(fixed_fields exampleEnv exampleClient "getOrders" "" World.init).2.2.2.2.2.2.1 rfl,
    by decide,
    (fixed_fields exampleEnv exampleClient "getOrders" "" World.init).2.2.2.2.2.2.2.2
      (by decide) (by decide)⟩

/-- C6. With `http.NewRequest` and `client.Do` as fallible steps:
a rejected construction returns the library's own error and nothing is sent;
an accepted request is sent exactly once, a failed transport returns the
fixed error `PostRequest: Unable to send request` whatever the transport's
own error was and whatever a later attempt would have given, and any response
(any status, any body) returns no error.  So an error is returned exactly
when the construction or the one transport call fails, the two errors are
different values, and at most one request is sent. -/
theorem error_iff_failure (env : Env) (l : LakeBTC) (method params : String) (w : World) :
    (∀ msg, env.newRequestErr "POST" LAKEBTC_API_URL = some msg →
        (SendAuthenticatedHTTPRequest env l method params w).1 = some (.lib msg) ∧
        (SendAuthenticatedHTTPRequest env l method params w).2.sent = w.sent) ∧
      (env.newRequestErr "POST" LAKEBTC_API_URL = none →
        (SendAuthenticatedHTTPRequest env l method params w).2.sent =
          w.sent ++ [authRequest env l (FormatInt (env.now w.clockReads))
            (canonical (FormatInt (env.now w.clockReads)) l.Email method params)] ∧
        (∀ e, env.roundTrip w.sent.length (authRequest env l (FormatInt (env.now w.clockReads))
              (canonical (FormatInt (env.now w.clockReads)) l.Email method params)) = .error e →
          (SendAuthenticatedHTTPRequest env l method params w).1 =
            some (.errorsNew "PostRequest: Unable to send request")) ∧
        (∀ resp, env.roundTrip w.sent.length
              (authRequest env l (FormatInt (env.now w.clockReads))
                (canonical (FormatInt (env.now w.clockReads)) l.Email method params))
              = .ok resp →
          (SendAuthenticatedHTTPRequest env l method params w).1 = none)) ∧
      ((SendAuthenticatedHTTPRequest env l method params w).1 ≠ none ↔
        (env.newRequestErr "POST" LAKEBTC_API_URL ≠ none ∨
          ∃ e, env.roundTrip w.sent.length (authRequest env l (FormatInt (env.now w.clockReads))
            (canonical (FormatInt (env.now w.clockReads)) l.Email method params)) = .error e)) ∧
      (∀ msg, GoError.lib msg ≠ GoError.errorsNew "PostRequest: Unable to send request") ∧
      (SendAuthenticatedHTTPRequest env l method params w).2.sent.length ≤ w.sent.length + 1 := by
  refine ⟨?_, ?_, ?_, ?_, ?_⟩
  · intro msg h
    rw [send_rejected env l method params w msg h]
    exact ⟨rfl, rfl⟩
  · intro h
    refine ⟨send_sent env l method params w h, ?_, ?_⟩
    · intro e ht
      rw [send_transport_error env l method params w e h ht]
    · intro resp ht
      rw [send_ok env l method params w resp h ht]
  · cases h : env.newRequestErr "POST" LAKEBTC_API_URL with
    | some msg =>
      rw [send_rejected env l method params w msg h]
      simp
    | none =>
      cases ht : env.roundTrip w.sent.length
          (authRequest env l (FormatInt (env.now w.clockReads))
            (canonical (FormatInt (env.now w.clockReads)) l.Email method params)) with
      | error e =>
        rw [send_transport_error env l method params w e h ht]
        simp
      | ok resp =>
        rw [send_ok env l method params w resp h ht]
        simp
  · intro msg hm
    cases hm
  · cases h : env.newRequestErr "POST" LAKEBTC_API_URL with
    | some msg =>
      rw [send_rejected env l method params w msg h]
      simp [afterBuild]
    | none =>
      rw [send_sent env l method params w h]
      simp

set_option maxRecDepth 16384 in
/-- C6 at three concrete surroundings: a rejecting library (the library's
error comes back, nothing is sent), a transport that fails at the first
attempt and would succeed at a second (the fixed error comes back, one
request was sent), and a transport that answers (no error). -/
theorem error_iff_failure_witness :
    (SendAuthenticatedHTTPRequest rejectingEnv exampleClient "getOrders" "" World.init).1 =
        some (.lib "parse: invalid URL") ∧
      (SendAuthenticatedHTTPRequest rejectingEnv exampleClient "getOrders" "" World.init).2.sent
        = [] ∧
      (SendAuthenticatedHTTPRequest flakyEnv exampleClient "getOrders" "" World.init).1 =
        some (.errorsNew "PostRequest: Unable to send request") ∧
      (SendAuthenticatedHTTPRequest flakyEnv exampleClient "getOrders" "" World.init).2.sent.length
        = 1 ∧
      (SendAuthenticatedHTTPRequest exampleEnv exampleClient "getOrders" "" World.init).1 = none :=
  ⟨((error_iff_failure rejectingEnv exampleClient "getOrders" "" World.init).1
      "parse: invalid URL" rfl).1,
    ((error_iff_failure rejectingEnv exampleClient "getOrders" "" World.init).1
      "parse: invalid URL" rfl).2,
    ((error_iff_failure flakyEnv exampleClient "getOrders" "" World.init).2.1 rfl).2.1
      "dial tcp: connection refused" rfl,
    by decide,
    ((error_iff_failure exampleEnv exampleClient "getOrders" "" World.init).2.1 rfl).2.2
      { StatusCode := 200, Body := "ok" } rfl⟩

theorem fixed8_head (neg : Bool) (n : Nat) : (fixed8 neg n).head? = some '-' ↔ neg = true := by
  cases neg with
  | true => simp [fixed8]
  | false =>
    cases hfu : formatUint (n / 10 ^ 8) with
    | nil => exact absurd hfu (formatUint_ne_nil _)
    | cons c cs =>
      obtain ⟨d, hd, hc⟩ := formatUint_digits (n / 10 ^ 8) c (by rw [hfu]; exact List.mem_cons_self _ _)
      have hcm : c ≠ '-' := by rw [hc]; exact (digitChar_spec d hd).2.2.1
      unfold fixed8
      rw [hfu]
      simp [hcm]

theorem FormatFloat_nearest (f : Float64) (h : f.expField ≠ 2047) :
    nearestFixed8 f (FormatFloat f 8) = true := by
  unfold nearestFixed8
  rw [FormatFloat_finite f h]
  simp only [fixed8_value]
  have := roundHalfEven_spec (f.absNum * 10 ^ 8) (2 ^ 1075) (by positivity)
  rw [Bool.and_eq_true, decide_eq_true_eq, decide_eq_true_eq]
  exact this

set_option exponentiation.threshold 2048 in
set_option maxRecDepth 16384 in
/-- C7, as the spec words it, fails: a `float64` may be a NaN, and for the
price NaN (bits 0x7FF8000000000000) with the amount 0.001 the parameter
string is `NaN,0.00100000,USD`; the price part is no decimal with eight
digits after the point. -/
theorem trade_params_counterexample :
    Trade.params ⟨0x3F50624DD2F1A9FC⟩ ⟨0x7FF8000000000000⟩ "USD" = "NaN,0.00100000,USD" ∧
      FormatFloat ⟨0x7FF8000000000000⟩ 8 = "NaN" ∧
      isFixedDecimal 8 (FormatFloat ⟨0x7FF8000000000000⟩ 8).data = false := by
  decide

/-- C7, amended. For every finite price and amount (exponent field other than
2047, so neither NaN nor an infinity) and every currency, the parameter
string of `Trade` is the price text, a comma, the amount text, a comma, and
the currency unchanged; each of the two texts is plain decimal notation with
exactly eight digits after the point, holds no comma, starts with `-`
exactly when the sign bit is set, and denotes the number within half a unit
of the eighth decimal of the value. -/
theorem trade_params_fixed_decimal (amount price : Float64) (currency : String)
    (hp : price.expField ≠ 2047) (ha : amount.expField ≠ 2047) :
    Trade.params amount price currency =
        FormatFloat price 8 ++ "," ++ FormatFloat amount 8 ++ "," ++ currency ∧
      isFixedDecimal 8 (FormatFloat price 8).data = true ∧
      isFixedDecimal 8 (FormatFloat amount 8).data = true ∧
      ',' ∉ (FormatFloat price 8).data ∧ ',' ∉ (FormatFloat amount 8).data ∧
      ((FormatFloat price 8).data.head? = some '-' ↔ price.neg = true) ∧
      ((FormatFloat amount 8).data.head? = some '-' ↔ amount.neg = true) ∧
      nearestFixed8 price (FormatFloat price 8) = true ∧
      nearestFixed8 amount (FormatFloat amount 8) = true := by
  refine ⟨rfl, ?_, ?_, ?_, ?_, ?_, ?_, FormatFloat_nearest price hp,
    FormatFloat_nearest amount ha⟩
  · rw [FormatFloat_finite price hp]; exact fixed8_isFixedDecimal _ _
  · rw [FormatFloat_finite amount ha]; exact fixed8_isFixedDecimal _ _
  · rw [FormatFloat_finite price hp]; exact fixed8_no_comma _ _
  · rw [FormatFloat_finite amount ha]; exact fixed8_no_comma _ _
  · rw [FormatFloat_finite price hp]; exact fixed8_head _ _
  · rw [FormatFloat_finite amount ha]; exact fixed8_head _ _

set_option exponentiation.threshold 2048 in
set_option maxRecDepth 16384 in
/-- C7, amended, at the spec's example: price 100.5 (bits 0x4059200000000000),
amount 0.001 (bits 0x3F50624DD2F1A9FC, the nearest `float64`) and currency
`USD` give `100.50000000,0.00100000,USD`. -/
theorem trade_params_fixed_decimal_witness :
    (⟨0x4059200000000000⟩ : Float64).expField ≠ 2047 ∧
      (⟨0x3F50624DD2F1A9FC⟩ : Float64).expField ≠ 2047 ∧
      Trade.params ⟨0x3F50624DD2F1A9FC⟩ ⟨0x4059200000000000⟩ "USD" =
        "100.50000000,0.00100000,USD" ∧
      isFixedDecimal 8 (FormatFloat ⟨0x4059200000000000⟩ 8).data = true ∧
      nearestFixed8 ⟨0x3F50624DD2F1A9FC⟩ (FormatFloat ⟨0x3F50624DD2F1A9FC⟩ 8) = true :=
  ⟨by decide, by decide, by decide,
    (trade_params_fixed_decimal ⟨0x3F50624DD2F1A9FC⟩ ⟨0x4059200000000000⟩ "USD"
      (by decide) (by decide)).2.1,
    (trade_params_fixed_decimal ⟨0x3F50624DD2F1A9FC⟩ ⟨0x4059200000000000⟩ "USD"
      (by decide) (by decide)).2.2.2.2.2.2.2.2⟩

theorem wrapInt64_range (i : Int) : -2 ^ 63 ≤ wrapInt64 i ∧ wrapInt64 i < 2 ^ 63 := by
  unfold wrapInt64
  have h1 := Int.emod_nonneg (i + 2 ^ 63) (b := 2 ^ 64) (by decide)
  have h2 := Int.emod_lt_of_pos (i + 2 ^ 63) (b := 2 ^ 64) (by decide)
  constructor <;> omega

theorem caller_fields (env : Env) (l : LakeBTC) (method params : String) (w : World) :
    (logIfErr (SendAuthenticatedHTTPRequest env l method params w)).clockReads
        = w.clockReads + 1 ∧
      (logIfErr (SendAuthenticatedHTTPRequest env l method params w)).built =
        w.built ++ [("POST", LAKEBTC_API_URL,
          Values.Encode (SendAuthenticatedHTTPRequest.values
            (FormatInt (env.now w.clockReads)) l.Email method params))] := by
  have h := logIfErr_fields (SendAuthenticatedHTTPRequest env l method params w)
  rw [h.1, h.2.1, send_clockReads, send_built, Encode_values]
  exact ⟨rfl, rfl⟩

/-- C8. `Trade` is one call of `SendAuthenticatedHTTPRequest` followed by the
logging of its error: the clock is read once and one request body is built.
The method name is `buyOrder` when `orderType` is 0 and `sellOrder` for every
other value; the parameter string and everything else in the body are the
same on both sides. -/
theorem trade_one_call (env : Env) (l : LakeBTC) (orderType : Int) (amount price : Float64)
    (currency : String) (w : World) :
    Trade env l orderType amount price currency w =
        logIfErr (SendAuthenticatedHTTPRequest env l
          (if orderType = 0 then "buyOrder" else "sellOrder")
          (Trade.params amount price currency) w) ∧
      (Trade env l orderType amount price currency w).clockReads = w.clockReads + 1 ∧
      (Trade env l orderType amount price currency w).built =
        w.built ++ [("POST", LAKEBTC_API_URL,
          Values.Encode (SendAuthenticatedHTTPRequest.values
            (FormatInt (env.now w.clockReads)) l.Email
            (if orderType = 0 then "buyOrder" else "sellOrder")
            (Trade.params amount price currency)))] ∧
      Values.Get (SendAuthenticatedHTTPRequest.values
            (FormatInt (env.now w.clockReads)) l.Email
            (if orderType = 0 then "buyOrder" else "sellOrder")
            (Trade.params amount price currency)) "params" =
        Trade.params amount price currency := by
  have e : Trade env l orderType amount price currency w =
      logIfErr (SendAuthenticatedHTTPRequest env l
        (if orderType = 0 then "buyOrder" else "sellOrder")
        (Trade.params amount price currency) w) := by
    unfold Trade
    by_cases h : orderType = 0
    · simp only [if_pos h]; rfl
    · simp only [if_neg h]; rfl
  refine ⟨e, ?_, ?_, rfl⟩
  · rw [e]; exact (caller_fields env l _ _ w).1
  · rw [e]; exact (caller_fields env l _ _ w).2

/-- C9. `GetTrades` is one call with the method `getTrades`; its parameter
string is empty for the zero `time.Time` and otherwise the decimal text of the
timestamp's Unix seconds, which reads back as that number.  The zero time
gives the empty string and the instant 1700000000 gives `1700000000`. -/
theorem getTrades_params (env : Env) (l : LakeBTC) (timestamp : Time) (w : World) :
    GetTrades env l timestamp w =
        logIfErr (SendAuthenticatedHTTPRequest env l "getTrades"
          (if timestamp.IsZero then "" else FormatInt timestamp.Unix) w) ∧
      (GetTrades env l timestamp w).built =
        w.built ++ [("POST", LAKEBTC_API_URL,
          Values.Encode (SendAuthenticatedHTTPRequest.values
            (FormatInt (env.now w.clockReads)) l.Email "getTrades"
            (if timestamp.IsZero then "" else FormatInt timestamp.Unix)))] ∧
      ParseInt (FormatInt timestamp.Unix) = some timestamp.Unix ∧
      GetTrades.params { sec := 0, nsec := 0 } = "" ∧
      GetTrades.params (Time.ofUnix 1700000000) = "1700000000" := by
  have e : GetTrades env l timestamp w =
      logIfErr (SendAuthenticatedHTTPRequest env l "getTrades"
        (if timestamp.IsZero then "" else FormatInt timestamp.Unix) w) := by
    unfold GetTrades GetTrades.params
    cases timestamp.IsZero <;> rfl
  refine ⟨e, ?_, ?_, by decide, by decide⟩
  · rw [e]; exact (caller_fields env l _ _ w).2
  · exact ParseInt_FormatInt _ (wrapInt64_range _).1 (wrapInt64_range _).2

/-- C10. For every order identifier in the `int64` range `CancelOrder` is one
call with the method `cancelOrder` and the base-10 text of the identifier as
parameter string; reading that text as a decimal integer gives the identifier
back. -/
theorem cancelOrder_params (env : Env) (l : LakeBTC) (orderID : Int) (w : World)
    (h0 : -2 ^ 63 ≤ orderID) (h1 : orderID < 2 ^ 63) :
    CancelOrder env l orderID w =
        logIfErr (SendAuthenticatedHTTPRequest env l "cancelOrder" (FormatInt orderID) w) ∧
      (CancelOrder env l orderID w).built =
        w.built ++ [("POST", LAKEBTC_API_URL,
          Values.Encode (SendAuthenticatedHTTPRequest.values
            (FormatInt (env.now w.clockReads)) l.Email "cancelOrder" (FormatInt orderID)))] ∧
      ParseInt (FormatInt orderID) = some orderID := by
  refine ⟨rfl, ?_, ParseInt_FormatInt orderID h0 h1⟩
  exact (caller_fields env l _ _ w).2

set_option maxRecDepth 16384 in
/-- C10 at the spec's example: the order 42 gives the parameter string `42`,
and the body built for it. -/
theorem cancelOrder_params_witness :
    FormatInt 42 = "42" ∧
      (CancelOrder exampleEnv exampleClient 42 World.init).built =
        [("POST", "https://www.LakeBTC.com/api_v1/",
          "accesskey=user&id=1700000000&method=cancelOrder&params=42&requestmethod=POST&tnonce=1700000000")] ∧
      ParseInt (FormatInt 42) = some 42 :=
  ⟨by decide, by decide,
    (cancelOrder_params exampleEnv exampleClient 42 World.init (by decide) (by decide)).2.2⟩

end Lakebtc
